import Mathlib

/-!
Verification of the ASP.NET Web-Forms scraping core of this repository
(`gui_std.py`, `std_list.py`, `list_students.py`): form-field extraction,
postback payload building, dropdown option cleanup, cascade step policies,
and the report parser (row extraction, header extraction, sort + dedup).

HTML pages are embedded shallowly: an element is represented by the
attributes and rendered text the Python code actually reads
(BeautifulSoup `get` / `get_text` results).  Python `dict`s are embedded as
insertion-ordered association lists with overwrite-in-place semantics.
All machine strings are Lean `String`s; Python string predicates
(`str.isdigit`, `str.strip`, containment) are modelled over the character
repertoire this application manipulates (ASCII digits, whitespace,
the no-break space, Arabic letters).
-/

/-- Characters stripped by Python `str.strip()`: whitespace, including the
no-break space U+00A0 (which Python treats as a space). -/
def isPySpace (c : Char) : Bool := c.isWhitespace || c = ' '

/-- Python `s.strip()`: drop leading and trailing whitespace. -/
def pyStrip (s : String) : String :=
  ⟨((s.data.dropWhile isPySpace).reverse.dropWhile isPySpace).reverse⟩

/-- Python `s.replace('\xa0', '')`: remove every no-break space. -/
def removeNbsp (s : String) : String :=
  ⟨s.data.filter (fun c => c ≠ ' ')⟩

/-- The cell cleanup `txt.replace('\xa0', '').strip()` used on seat/name cells. -/
def cleanCell (s : String) : String := pyStrip (removeNbsp s)

/-- Python `s.isdigit()` on the id/serial column: nonempty and all digits. -/
def pyIsDigit (s : String) : Bool := !s.data.isEmpty && s.data.all Char.isDigit

/-- Decimal value of a digit list, most significant first (Python `int(s)`). -/
def decVal (cs : List Char) : Nat :=
  cs.foldl (fun a c => a * 10 + (c.toNat - 48)) 0

/-- Python `int(s)` for a digit string. -/
def parseNat (s : String) : Nat := decVal s.data

/-- `pat` occurs as a contiguous sublist of `s`. -/
def hasSubSeq : List Char → List Char → Bool
  | [], pat => pat.isEmpty
  | c :: rest, pat => pat.isPrefixOf (c :: rest) || hasSubSeq rest pat

/-- Python substring containment `pat in s`. -/
def strContains (s pat : String) : Bool := hasSubSeq s.data pat.data

/-- Python `s.startswith(pat)`. -/
def strStarts (s pat : String) : Bool := pat.data.isPrefixOf s.data

/-- The ASCII digit character for `n < 10`. -/
def digitChar (n : Nat) : Char := Char.ofNat (48 + n)

/-- Decimal digit characters of `n`, most significant first; `fuel` bounds the
recursion (any `fuel > n` is enough). -/
def natDecCore : Nat → Nat → List Char
  | 0, _ => []
  | fuel + 1, n =>
    if n < 10 then [digitChar n]
    else natDecCore fuel (n / 10) ++ [digitChar (n % 10)]

/-- Python `str(n)` / f-string rendering of a natural number: decimal digits. -/
def natDec (n : Nat) : String := ⟨natDecCore (n + 1) n⟩

/-! ## HTML page model

Only the element features the scraper reads are modelled.  Attribute
presence/absence (`element.get(attr)` returning `None`) is an `Option`. -/

/-- An `<input>` element: its `name` and `value` attributes. -/
structure InputElem where
  name : Option String
  value : Option String
deriving DecidableEq, Repr

/-- An `<option>` element: its `value` attribute, rendered text (`.text`),
and whether the `selected` attribute is present. -/
structure OptionElem where
  value : Option String
  label : String
  selected : Bool
deriving DecidableEq, Repr

/-- A `<select>` element: `id` and `name` attributes and its options in
document order. -/
structure SelectElem where
  id : Option String
  name : Option String
  options : List OptionElem
deriving DecidableEq, Repr

/-- A `<tr>` element: its `align` attribute and the `get_text` results of its
`<td>` children in document order. -/
structure RowElem where
  align : Option String
  cells : List String
deriving DecidableEq, Repr

/-- A parsed page: the elements of each kind in document order, plus the rows
of the specifically-identified results table `ctl00_ContentPlaceHolder3_gv_list`
when that table is present. -/
structure Page where
  inputs : List InputElem
  selects : List SelectElem
  rows : List RowElem
  resultsTable : Option (List RowElem)
deriving DecidableEq, Repr

/-- `soup.find('select', {'id': eid})`: first select with the given id. -/
def findSelectById (p : Page) (eid : String) : Option SelectElem :=
  p.selects.find? (fun s => s.id = some eid)

/-! ## Python dict model

A `FieldMap` is an insertion-ordered association list.  The key is
`Option String` because `make_post` can index the dict with
`sel.get('name')`, which is Python `None` when the attribute is absent. -/

/-- Form data dictionary: insertion-ordered, keys unique by construction. -/
abbrev FieldMap := List (Option String × String)

/-- `d[k] = v`: overwrite in place if the key exists, else append. -/
def dictInsert : FieldMap → Option String → String → FieldMap
  | [], k, v => [(k, v)]
  | kv :: rest, k, v =>
    if kv.1 = k then (k, v) :: rest else kv :: dictInsert rest k v

/-- `d.get(k)`. -/
def dictLookup (fm : FieldMap) (k : Option String) : Option String :=
  (fm.find? (fun kv => kv.1 = k)).map (fun kv => kv.2)

/-- `k in d`. -/
def dictHas (fm : FieldMap) (k : Option String) : Bool :=
  fm.any (fun kv => kv.1 = k)

/-- `del d[k]`. -/
def dictDelete (fm : FieldMap) (k : Option String) : FieldMap :=
  fm.filter (fun kv => kv.1 ≠ k)

/-! ## Form-field extraction -/

/-- The body of the `<input>` loop shared by `get_form_data` and
`get_all_form_inputs`: record an entry only when the `name` attribute is
truthy (present and nonempty), defaulting the value to the empty string. -/
def inputStep (data : FieldMap) (inp : InputElem) : FieldMap :=
  match inp.name with
  | some n => if n = "" then data else dictInsert data (some n) (inp.value.getD "")
  | none => data

/-- `TantaScraperApp.get_form_data` (gui_std.py): one entry per `<input>`
whose `name` attribute is truthy (present and nonempty), value defaulting to
the empty string; `<select>` elements are never read. -/
def get_form_data (soup : Page) : FieldMap :=
  soup.inputs.foldl inputStep []

/-- The `<select>` pass of `get_all_form_inputs`: the selected option's value
if an option carries the `selected` attribute, else the first option's value,
else the empty string. -/
def selectValue (sel : SelectElem) : String :=
  match sel.options.find? (fun o => o.selected) with
  | some o => o.value.getD ""
  | none =>
    match sel.options.head? with
    | some f => f.value.getD ""
    | none => ""

/-- The body of the `<select>` loop of `get_all_form_inputs`: record an entry
only when the `name` attribute is truthy. -/
def selectStep (inputs : FieldMap) (sel : SelectElem) : FieldMap :=
  match sel.name with
  | some n => if n = "" then inputs else dictInsert inputs (some n) (selectValue sel)
  | none => inputs

/-- `get_all_form_inputs` (std_list.py): the input pass of `get_form_data`
followed by one entry per `<select>` with a truthy `name`. -/
def get_all_form_inputs (soup : Page) : FieldMap :=
  soup.selects.foldl selectStep (soup.inputs.foldl inputStep [])

/-! ## Option extraction and cleanup -/

/-- `TantaScraperApp.extract_options` (gui_std.py): `(value, stripped text)`
pairs of the options of the select with the given id, keeping an option only
when its value is truthy and not `"0"`, its text does not contain the Arabic
placeholder marker, and its text does not start with `"Select"`. -/
def extract_options (soup : Page) (element_id : String) : List (String × String) :=
  match findSelectById soup element_id with
  | none => []
  | some select =>
    select.options.filterMap (fun opt =>
      let val := opt.value.getD ""
      let txt := pyStrip opt.label
      if val ≠ "" ∧ val ≠ "0" ∧ strContains txt "اختر" = false ∧ strStarts txt "Select" = false
      then some (val, txt) else none)

/-- The `(value, stripped text)` projection of the found select's options,
before any cleanup (the raw `OptionEntry` list of a select). -/
def optionEntries (soup : Page) (element_id : String) : List (String × String) :=
  match findSelectById soup element_id with
  | none => []
  | some select =>
    select.options.map (fun opt => (opt.value.getD "", pyStrip opt.label))

/-- Modelled from the spec's description of the cleanup filter: an entry is a
placeholder when its value is empty or `"0"`, its label contains the locale
placeholder marker, or its label starts with the English word `"Select"`. -/
def isPlaceholder (e : String × String) : Bool :=
  e.1 = "" || e.1 = "0" || strContains e.2 "اختر" || strStarts e.2 "Select"

/-- The server element id of the Year dropdown (`id_map["Year"]`). -/
def yearId : String := "ctl00_ContentPlaceHolder3_ddl_acad_year"

/-- The server element id of the Phase dropdown (`id_map["Phase"]`). -/
def phaseId : String := "ctl00_ContentPlaceHolder3_ddl_phase"

/-- The Year step (`initiate_sequence` / `load_step "Year"`):
`extract_options(id_map["Year"])[:4]`. -/
def year_step (soup : Page) : List (String × String) :=
  (extract_options soup yearId).take 4

/-- The Phase step (`load_step "Phase"`): keep the cleaned entries whose label
contains the level marker. -/
def phase_step (soup : Page) : List (String × String) :=
  (extract_options soup phaseId).filter (fun o => strContains o.2 "المستوى")

/-! ## Postback payload building -/

/-- The report-submission button field name
(`ctl00$ContentPlaceHolder3$Button1`). -/
def reportButtonKey : String := "ctl00$ContentPlaceHolder3$Button1"

/-- `self.id_map.get(key)` (gui_std.py): step key to server element id. -/
def id_map_get (key : String) : Option String :=
  if key = "Year" then some "ctl00_ContentPlaceHolder3_ddl_acad_year"
  else if key = "Faculty" then some "ctl00_ContentPlaceHolder3_ddl_fac"
  else if key = "Regulation" then some "ctl00_ContentPlaceHolder3_ddl_bylaw"
  else if key = "Phase" then some "ctl00_ContentPlaceHolder3_ddl_phase"
  else if key = "Dept" then some "ctl00_ContentPlaceHolder3_ddl_dept"
  else if key = "Semester" then some "ctl00_ContentPlaceHolder3_ddl_semester"
  else if key = "Door" then some "ctl00_ContentPlaceHolder3_door"
  else if key = "SubjSem" then some "ctl00_ContentPlaceHolder3_ddl_semester_subject"
  else if key = "Subject" then some "ctl00_ContentPlaceHolder3_ddl_subj"
  else none

/-- The re-send pass over `self.selections` in `make_post`: for each selected
step, resolve its element id, find the select, and overwrite the field named
by the select's truthy `name` with the stored value. -/
def applySelections (soup : Page) (fd : FieldMap)
    (selections : List (String × String)) : FieldMap :=
  selections.foldl
    (fun fd kv =>
      match id_map_get kv.1 with
      | some html_id =>
        match findSelectById soup html_id with
        | some elem =>
          match elem.name with
          | some n => if n = "" then fd else dictInsert fd (some n) kv.2
          | none => fd
        | none => fd
      | none => fd)
    fd

/-- The override pass of both payload builders: for each `(element id, value)`
pair, if a select with that id exists, write the value under the select's
`name` attribute (the Python `None` key when the attribute is absent);
otherwise skip silently. -/
def applyUpdates (soup : Page) (fd : FieldMap)
    (updates : List (String × String)) : FieldMap :=
  updates.foldl
    (fun fd kv =>
      match findSelectById soup kv.1 with
      | some sel => dictInsert fd sel.name kv.2
      | none => fd)
    fd

/-- `__EVENTTARGET` resolution: the `name` of the select whose id is
`event_target`, defaulting to the empty string when the select (or its name
attribute) is absent. -/
def eventTargetName (soup : Page) (event_target : String) : String :=
  match findSelectById soup event_target with
  | some target_elem => target_elem.name.getD ""
  | none => ""

/-- `TantaScraperApp.make_post` (gui_std.py), payload-building part: `none`
models the early `return False` when the page has no `__VIEWSTATE` input
(session expired); otherwise the posted form data. -/
def make_post_payload (soup : Page) (selections : List (String × String))
    (updates : List (String × String)) (event_target : String) : Option FieldMap :=
  if (soup.inputs.find? (fun i => i.name = some "__VIEWSTATE")).isNone then none
  else
    let form_data := get_form_data soup
    let form_data := applySelections soup form_data selections
    let form_data := applyUpdates soup form_data updates
    let form_data := dictInsert form_data (some "__EVENTTARGET") (eventTargetName soup event_target)
    let form_data :=
      if dictHas form_data (some reportButtonKey)
      then dictDelete form_data (some reportButtonKey)
      else form_data
    some form_data

/-- The body of the required-dropdowns loop of `make_post_request`:
`if d not in form_data: form_data[d] = '0'`. -/
def requiredStep (fd : FieldMap) (d : String) : FieldMap :=
  if dictHas fd (some d) then fd else dictInsert fd (some d) "0"

/-- The dropdown field names defaulted to `'0'` by `make_post_request`. -/
def required_dropdowns : List String :=
  ["ctl00$ContentPlaceHolder3$ddl_acad_year", "ctl00$ContentPlaceHolder3$ddl_fac",
   "ctl00$ContentPlaceHolder3$ddl_bylaw", "ctl00$ContentPlaceHolder3$ddl_phase",
   "ctl00$ContentPlaceHolder3$ddl_dept", "ctl00$ContentPlaceHolder3$ddl_semester",
   "ctl00$ContentPlaceHolder3$ddl_semester_subject"]

/-- `make_post_request` (std_list.py), payload-building part: extract all
inputs and selects, delete the report button field, default the required
dropdowns to `'0'` when absent, apply the overrides, then set
`__EVENTTARGET`, `__EVENTARGUMENT` and `__LASTFOCUS`. -/
def make_post_request_payload (soup : Page) (updates : List (String × String))
    (event_target : String) : FieldMap :=
  let form_data := get_all_form_inputs soup
  let form_data :=
    if dictHas form_data (some reportButtonKey)
    then dictDelete form_data (some reportButtonKey)
    else form_data
  let form_data := required_dropdowns.foldl requiredStep form_data
  let form_data := applyUpdates soup form_data updates
  let form_data := dictInsert form_data (some "__EVENTTARGET") (eventTargetName soup event_target)
  let form_data := dictInsert form_data (some "__EVENTARGUMENT") ""
  dictInsert form_data (some "__LASTFOCUS") ""

/-! ## Report parsing -/

/-- A parsed student row (`parse_results` dict): identifier from the serial
column, seat number, cleaned name, reversed grade-column values. -/
structure StudentRecord where
  id : Nat
  seat : String
  name : String
  grades : List String
deriving DecidableEq, Repr

/-- `cells[-k]` for a row with at least `k` cells. -/
def cellFromEnd (cells : List String) (k : Nat) : String :=
  cells.getD (cells.length - k) ""

/-- The per-row body of the `parse_results` loop (gui_std.py): a row yields a
record only when it has at least 8 cells, its last cell is a pure digit
string, and its cleaned name cell is nonempty and free of the student-name
header label.  Then `id = int(cells[-1])`, `seat = clean(cells[-2])`,
`name = clean(cells[-3])`, `grades = reversed(cells[:-6])`. -/
def parse_row (cells : List String) : Option StudentRecord :=
  if 8 ≤ cells.length then
    let s_txt := cellFromEnd cells 1
    if pyIsDigit s_txt then
      let s_id := parseNat s_txt
      let seat_no := cleanCell (cellFromEnd cells 2)
      let name := cleanCell (cellFromEnd cells 3)
      let grade_values := (cells.take (cells.length - 6)).reverse
      if name ≠ "" ∧ strContains name "اسم الطالب" = false then
        some { id := s_id, seat := seat_no, name := name, grades := grade_values }
      else none
    else none
  else none

/-- `students.sort(key=lambda x: x['id'])`: Python's list sort is the stable
sort by `id`; the stable sort with respect to a total preorder is unique, and
insertion sort realises it. -/
def sortById (students : List StudentRecord) : List StudentRecord :=
  students.insertionSort (fun a b => a.id ≤ b.id)

/-- The dedup loop of `parse_results`: keep a record when its name has not
been seen, remember the name, drop later records with a seen name. -/
def dedupByName : List StudentRecord → List String → List StudentRecord
  | [], _ => []
  | s :: rest, seen =>
    if s.name ∈ seen then dedupByName rest seen
    else s :: dedupByName rest (s.name :: seen)

/-- The post-processing of `parse_results`: stable sort ascending by id, then
deduplicate by name keeping the first occurrence. -/
def postProcess (students : List StudentRecord) : List StudentRecord :=
  dedupByName (sortById students) []

/-- The row source of `parse_results`: the identified results table when
present, else every row of the page. -/
def rowsOf (soup : Page) : List RowElem :=
  match soup.resultsTable with
  | some t => t
  | none => soup.rows

/-- `TantaScraperApp.parse_results` (gui_std.py), student-list part. -/
def parse_results (soup : Page) : List StudentRecord :=
  postProcess ((rowsOf soup).filterMap (fun row => parse_row row.cells))

/-! ## Header extraction -/

/-- The enumerate loop of `extract_table_headers`: append each cell text,
suffixing `"_<cell index>"` when the text already occurs among the extracted
labels. -/
def headerLoop : List String → Nat → List String → List String
  | [], _, acc => acc
  | t :: ts, i, acc =>
    let t' := if t ∈ acc then t ++ "_" ++ natDec i else t
    headerLoop ts (i + 1) (acc ++ [t'])

/-- `TantaScraperApp.extract_table_headers` (gui_std.py): find the first
center-aligned row; with at most 6 cells the header list is empty, otherwise
process the cells with the trailing 6 dropped and reverse the result. -/
def extract_table_headers (soup : Page) : List String :=
  match soup.rows.find? (fun r => r.align = some "center") with
  | none => []
  | some header_row =>
    let cells := header_row.cells
    if cells.length ≤ 6 then []
    else
      let target_cells := cells.take (cells.length - 6)
      (headerLoop target_cells 0 []).reverse

/-! ## Dictionary lemmas -/

theorem dictInsert_cons_pos {kv : Option String × String} {rest : FieldMap}
    {k : Option String} {v : String} (h : kv.1 = k) :
    dictInsert (kv :: rest) k v = (k, v) :: rest := by
  simp [dictInsert, h]

theorem dictInsert_cons_neg {kv : Option String × String} {rest : FieldMap}
    {k : Option String} {v : String} (h : ¬kv.1 = k) :
    dictInsert (kv :: rest) k v = kv :: dictInsert rest k v := by
  simp [dictInsert, h]

theorem dictDelete_cons_pos {kv : Option String × String} {rest : FieldMap}
    {k : Option String} (h : kv.1 = k) :
    dictDelete (kv :: rest) k = dictDelete rest k := by
  simp [dictDelete, List.filter_cons, h]

theorem dictDelete_cons_neg {kv : Option String × String} {rest : FieldMap}
    {k : Option String} (h : ¬kv.1 = k) :
    dictDelete (kv :: rest) k = kv :: dictDelete rest k := by
  simp [dictDelete, List.filter_cons, h]

theorem dictLookup_cons_pos {kv : Option String × String} {rest : FieldMap}
    {k : Option String} (h : kv.1 = k) : dictLookup (kv :: rest) k = some kv.2 := by
  simp [dictLookup, List.find?_cons_of_pos, h]

theorem dictLookup_cons_neg {kv : Option String × String} {rest : FieldMap}
    {k : Option String} (h : ¬kv.1 = k) : dictLookup (kv :: rest) k = dictLookup rest k := by
  simp only [dictLookup]
  rw [List.find?_cons_of_neg]
  simpa using h

theorem dictHas_cons {kv : Option String × String} {rest : FieldMap} {k : Option String} :
    dictHas (kv :: rest) k = (decide (kv.1 = k) || dictHas rest k) := rfl

theorem dictLookup_insert_self : ∀ (fm : FieldMap) (k : Option String) (v : String),
    dictLookup (dictInsert fm k v) k = some v
  | [], k, v => by simp [dictInsert, dictLookup]
  | kv :: rest, k, v => by
    by_cases h : kv.1 = k
    · rw [dictInsert_cons_pos h]
      exact dictLookup_cons_pos rfl
    · rw [dictInsert_cons_neg h, dictLookup_cons_neg h]
      exact dictLookup_insert_self rest k v

theorem dictLookup_insert_ne : ∀ (fm : FieldMap) {k' k : Option String} (v : String),
    k' ≠ k → dictLookup (dictInsert fm k' v) k = dictLookup fm k
  | [], k', k, v, h => by
    simp only [dictInsert]
    rw [dictLookup_cons_neg h]
  | kv :: rest, k', k, v, h => by
    by_cases hkv : kv.1 = k'
    · rw [dictInsert_cons_pos hkv, dictLookup_cons_neg h]
      by_cases hk : kv.1 = k
      · exact absurd (hkv.symm.trans hk) h
      · rw [dictLookup_cons_neg hk]
    · rw [dictInsert_cons_neg hkv]
      by_cases hk : kv.1 = k
      · rw [dictLookup_cons_pos hk, dictLookup_cons_pos hk]
      · rw [dictLookup_cons_neg hk, dictLookup_cons_neg hk]
        exact dictLookup_insert_ne rest v h

theorem dictHas_insert_self : ∀ (fm : FieldMap) (k : Option String) (v : String),
    dictHas (dictInsert fm k v) k = true
  | [], k, v => by simp [dictInsert, dictHas]
  | kv :: rest, k, v => by
    by_cases h : kv.1 = k
    · rw [dictInsert_cons_pos h]
      simp [dictHas_cons]
    · rw [dictInsert_cons_neg h, dictHas_cons, dictHas_insert_self rest k v]
      simp

theorem dictHas_insert_ne : ∀ (fm : FieldMap) {k' k : Option String} (v : String),
    k' ≠ k → dictHas (dictInsert fm k' v) k = dictHas fm k
  | [], k', k, v, h => by simp [dictInsert, dictHas, h]
  | kv :: rest, k', k, v, h => by
    by_cases hkv : kv.1 = k'
    · rw [dictInsert_cons_pos hkv, dictHas_cons, dictHas_cons]
      have h1 : (decide (k' = k)) = false := decide_eq_false h
      have h2 : (decide (kv.1 = k)) = false :=
        decide_eq_false (fun hh => h (hkv.symm.trans hh))
      rw [h1, h2]
    · rw [dictInsert_cons_neg hkv, dictHas_cons, dictHas_cons,
        dictHas_insert_ne rest v h]

theorem dictHas_insert_mono (fm : FieldMap) (k' k : Option String) (v : String)
    (h : dictHas fm k = true) : dictHas (dictInsert fm k' v) k = true := by
  by_cases hk : k' = k
  · subst hk; exact dictHas_insert_self fm k' v
  · rw [dictHas_insert_ne fm v hk]; exact h

theorem dictLookup_delete_ne : ∀ (fm : FieldMap) {k' k : Option String},
    k ≠ k' → dictLookup (dictDelete fm k') k = dictLookup fm k
  | [], k', k, h => rfl
  | kv :: rest, k', k, h => by
    by_cases hkv : kv.1 = k'
    · have hne : ¬kv.1 = k := fun hh => h (hh.symm.trans hkv)
      rw [dictDelete_cons_pos hkv, dictLookup_cons_neg hne]
      exact dictLookup_delete_ne rest h
    · rw [dictDelete_cons_neg hkv]
      by_cases hk : kv.1 = k
      · rw [dictLookup_cons_pos hk, dictLookup_cons_pos hk]
      · rw [dictLookup_cons_neg hk, dictLookup_cons_neg hk]
        exact dictLookup_delete_ne rest h

theorem dictHas_delete_self : ∀ (fm : FieldMap) (k : Option String),
    dictHas (dictDelete fm k) k = false
  | [], k => rfl
  | kv :: rest, k => by
    by_cases hkv : kv.1 = k
    · rw [dictDelete_cons_pos hkv]
      exact dictHas_delete_self rest k
    · rw [dictDelete_cons_neg hkv, dictHas_cons, dictHas_delete_self rest k]
      simp [hkv]

theorem mem_dictInsert : ∀ (fm : FieldMap) (k : Option String) (v : String)
    (kv : Option String × String), kv ∈ dictInsert fm k v → kv = (k, v) ∨ kv ∈ fm
  | [], k, v, kv, h => by simpa [dictInsert] using h
  | kv' :: rest, k, v, kv, h => by
    by_cases hk : kv'.1 = k
    · rw [dictInsert_cons_pos hk] at h
      rcases List.mem_cons.mp h with h | h
      · exact Or.inl h
      · exact Or.inr (List.mem_cons_of_mem _ h)
    · rw [dictInsert_cons_neg hk] at h
      rcases List.mem_cons.mp h with h | h
      · exact Or.inr (by simp [h])
      · rcases mem_dictInsert rest k v kv h with h' | h'
        · exact Or.inl h'
        · exact Or.inr (List.mem_cons_of_mem _ h')

/-! ## Decimal rendering lemmas -/

theorem digitChar_toNat {d : Nat} (h : d < 10) : (digitChar d).toNat = 48 + d := by
  interval_cases d <;> rfl

theorem decVal_append_last (xs : List Char) (c : Char) :
    decVal (xs ++ [c]) = decVal xs * 10 + (c.toNat - 48) := by
  simp [decVal, List.foldl_append]

theorem decVal_natDecCore : ∀ (fuel n : Nat), n < fuel → decVal (natDecCore fuel n) = n := by
  intro fuel
  induction fuel with
  | zero => intro n h; omega
  | succ fuel ih =>
    intro n h
    by_cases h10 : n < 10
    · simp only [natDecCore, if_pos h10]
      simp [decVal, digitChar_toNat h10]
    · simp only [natDecCore, if_neg h10]
      rw [decVal_append_last]
      have hdiv : n / 10 < fuel := by
        have := Nat.div_lt_self (show 0 < n by omega) (show 1 < 10 by norm_num)
        omega
      rw [ih (n / 10) hdiv, digitChar_toNat (Nat.mod_lt n (by norm_num))]
      omega

theorem natDec_inj {m n : Nat} (h : natDec m = natDec n) : m = n := by
  have hd : natDecCore (m + 1) m = natDecCore (n + 1) n := congrArg String.data h
  have hm := decVal_natDecCore (m + 1) m (Nat.lt_succ_self m)
  have hn := decVal_natDecCore (n + 1) n (Nat.lt_succ_self n)
  rw [← hm, ← hn, hd]

/-- A string is never equal to itself extended by an underscore suffix. -/
theorem ne_self_append_suffix (t s : String) : t ≠ t ++ "_" ++ s := by
  intro h
  have hd : t.data = t.data ++ "_".data ++ s.data := by
    have := congrArg String.data h
    rwa [String.data_append, String.data_append] at this
  have hl := congrArg List.length hd
  simp [List.length_append] at hl

/-- Underscore-index suffixes distinguish labels with distinct indices. -/
theorem append_natDec_inj {t : String} {i j : Nat}
    (h : t ++ "_" ++ natDec i = t ++ "_" ++ natDec j) : i = j := by
  have hd := congrArg String.data h
  rw [String.data_append, String.data_append, String.data_append, String.data_append,
    List.append_assoc, List.append_assoc] at hd
  have h2 := List.append_cancel_left hd
  have h3 := List.append_cancel_left h2
  exact natDec_inj (congrArg String.mk h3)

/-! ## Header loop lemmas -/

theorem getD_append_length {α : Type} (d : α) : ∀ (a : List α) (x : α),
    (a ++ [x]).getD a.length d = x
  | [], x => rfl
  | y :: a, x => by
    rw [List.cons_append, List.length_cons, List.getD_cons_succ]
    exact getD_append_length d a x

theorem headerLoop_length : ∀ (ts : List String) (i : Nat) (acc : List String),
    (headerLoop ts i acc).length = acc.length + ts.length
  | [], _, acc => by simp [headerLoop]
  | t :: ts, i, acc => by
    simp only [headerLoop, headerLoop_length ts (i + 1) _, List.length_append,
      List.length_cons, List.length_nil]
    omega

theorem headerLoop_eq_append : ∀ (ts : List String) (i : Nat) (acc : List String),
    ∃ rest, headerLoop ts i acc = acc ++ rest
  | [], _, acc => ⟨[], by simp [headerLoop]⟩
  | t :: ts, i, acc => by
    obtain ⟨rest, hrest⟩ := headerLoop_eq_append ts (i + 1)
      (acc ++ [if t ∈ acc then t ++ "_" ++ natDec i else t])
    refine ⟨(if t ∈ acc then t ++ "_" ++ natDec i else t) :: rest, ?_⟩
    simp only [headerLoop, hrest, List.append_assoc, List.singleton_append]

theorem headerLoop_getD_front (ts : List String) (i : Nat) (acc : List String)
    (p : Nat) (hp : p < acc.length) :
    (headerLoop ts i acc).getD p "" = acc.getD p "" := by
  obtain ⟨rest, hrest⟩ := headerLoop_eq_append ts i acc
  rw [hrest, List.getD_append _ _ _ p hp]

theorem headerLoop_getD_head (t₀ : String) (ts : List String) (i : Nat) (acc : List String) :
    (headerLoop (t₀ :: ts) i acc).getD acc.length "" =
      (if t₀ ∈ acc then t₀ ++ "_" ++ natDec i else t₀) := by
  simp only [headerLoop]
  rw [headerLoop_getD_front _ _ _ _ (by simp)]
  exact getD_append_length "" acc _

theorem headerLoop_getD_shift (t₀ : String) (ts : List String) (i : Nat) (acc : List String)
    (m : Nat) :
    (headerLoop (t₀ :: ts) i acc).getD (acc.length + (m + 1)) "" =
      (headerLoop ts (i + 1) (acc ++ [if t₀ ∈ acc then t₀ ++ "_" ++ natDec i else t₀])).getD
        ((acc ++ [if t₀ ∈ acc then t₀ ++ "_" ++ natDec i else t₀]).length + m) "" := by
  simp only [headerLoop]
  congr 1
  simp only [List.length_append, List.length_singleton]
  omega

theorem headerLoop_ne_of_mem_acc : ∀ (ts : List String) (i : Nat) (acc : List String)
    (t : String) (m : Nat), t ∈ acc → m < ts.length → ts.getD m "" = t →
    (headerLoop ts i acc).getD (acc.length + m) "" ≠ t
  | [], _, _, _, m, _, hm, _ => by simp at hm
  | t₀ :: ts, i, acc, t, 0, hacc, _, hts => by
    have ht0 : t₀ = t := by simpa using hts
    subst ht0
    rw [Nat.add_zero, headerLoop_getD_head, if_pos hacc]
    exact (ne_self_append_suffix t₀ (natDec i)).symm
  | t₀ :: ts, i, acc, t, m + 1, hacc, hm, hts => by
    rw [headerLoop_getD_shift]
    exact headerLoop_ne_of_mem_acc ts (i + 1) _ t m
      (List.mem_append_left _ hacc) (by simpa using hm) (by simpa using hts)

theorem headerLoop_ne_decorated : ∀ (ts : List String) (i : Nat) (acc : List String)
    (t : String) (j m : Nat), j < i → m < ts.length → ts.getD m "" = t →
    (headerLoop ts i acc).getD (acc.length + m) "" ≠ t ++ "_" ++ natDec j
  | [], _, _, _, _, m, _, hm, _ => by simp at hm
  | t₀ :: ts, i, acc, t, j, 0, hj, _, hts => by
    have ht0 : t₀ = t := by simpa using hts
    subst ht0
    rw [Nat.add_zero, headerLoop_getD_head]
    by_cases hmem : t₀ ∈ acc
    · rw [if_pos hmem]
      intro h
      exact absurd (append_natDec_inj h) (by omega)
    · rw [if_neg hmem]
      exact ne_self_append_suffix t₀ (natDec j)
  | t₀ :: ts, i, acc, t, j, m + 1, hj, hm, hts => by
    rw [headerLoop_getD_shift]
    exact headerLoop_ne_decorated ts (i + 1) _ t j m (by omega)
      (by simpa using hm) (by simpa using hts)

theorem headerLoop_pair_ne : ∀ (ts : List String) (i : Nat) (acc : List String)
    (k l : Nat), k < l → l < ts.length → ts.getD k "" = ts.getD l "" →
    (headerLoop ts i acc).getD (acc.length + k) "" ≠
      (headerLoop ts i acc).getD (acc.length + l) ""
  | [], _, _, _, l, _, hl, _ => by simp at hl
  | t₀ :: ts, i, acc, 0, l, hkl, hl, heq => by
    obtain ⟨l', rfl⟩ : ∃ l', l = l' + 1 := ⟨l - 1, by omega⟩
    have hts : ts.getD l' "" = t₀ := by simpa using heq.symm
    rw [Nat.add_zero, headerLoop_getD_head, headerLoop_getD_shift]
    by_cases hmem : t₀ ∈ acc
    · rw [if_pos hmem]
      exact (headerLoop_ne_decorated ts (i + 1) _ t₀ i l' (by omega)
        (by simpa using hl) hts).symm
    · rw [if_neg hmem]
      refine (headerLoop_ne_of_mem_acc ts (i + 1) _ t₀ l' ?_ (by simpa using hl) hts).symm
      exact List.mem_append_right _ (List.mem_singleton_self t₀)
  | t₀ :: ts, i, acc, k + 1, l, hkl, hl, heq => by
    obtain ⟨l', rfl⟩ : ∃ l', l = l' + 1 := ⟨l - 1, by omega⟩
    rw [headerLoop_getD_shift, headerLoop_getD_shift]
    exact headerLoop_pair_ne ts (i + 1) _ k l' (by omega) (by simpa using hl)
      (by simpa using heq)

theorem headerLoop_split : ∀ (a b : List String) (i : Nat) (acc : List String),
    headerLoop (a ++ b) i acc = headerLoop b (i + a.length) (headerLoop a i acc)
  | [], b, i, acc => by simp [headerLoop]
  | t :: a, b, i, acc => by
    simp only [List.cons_append, headerLoop]
    rw [show a.append b = a ++ b from rfl, headerLoop_split a b (i + 1)]
    simp only [List.length_cons]
    have harith : i + (a.length + 1) = i + 1 + a.length := by omega
    rw [harith]

theorem headerLoop_of_nodup : ∀ (ts : List String) (i : Nat) (acc : List String),
    ts.Nodup → (∀ t ∈ ts, t ∉ acc) → headerLoop ts i acc = acc ++ ts
  | [], _, acc, _, _ => by simp [headerLoop]
  | t₀ :: ts, i, acc, hnd, hdisj => by
    have hmem : t₀ ∉ acc := hdisj t₀ (List.mem_cons_self _ _)
    simp only [headerLoop, if_neg hmem]
    rw [headerLoop_of_nodup ts (i + 1) (acc ++ [t₀]) (List.Nodup.of_cons hnd) ?_]
    · simp
    · intro t ht
      simp only [List.mem_append, List.mem_singleton]
      rintro (h | h)
      · exact hdisj t (List.mem_cons_of_mem _ ht) h
      · subst h
        exact (List.nodup_cons.mp hnd).1 ht

/-! ## Sort and dedup lemmas -/

instance : IsTotal StudentRecord (fun a b => a.id ≤ b.id) :=
  ⟨fun a b => Nat.le_total a.id b.id⟩

instance : IsTrans StudentRecord (fun a b => a.id ≤ b.id) :=
  ⟨fun _ _ _ h1 h2 => Nat.le_trans h1 h2⟩

theorem sortById_sorted (l : List StudentRecord) :
    (sortById l).Pairwise (fun a b => a.id ≤ b.id) :=
  List.sorted_insertionSort _ l

theorem sortById_perm (l : List StudentRecord) : (sortById l).Perm l :=
  List.perm_insertionSort _ l

theorem dedupByName_sublist : ∀ (l : List StudentRecord) (seen : List String),
    (dedupByName l seen).Sublist l
  | [], _ => List.Sublist.refl _
  | s :: rest, seen => by
    by_cases h : s.name ∈ seen
    · simp only [dedupByName, if_pos h]
      exact (dedupByName_sublist rest seen).cons s
    · simp only [dedupByName, if_neg h]
      exact (dedupByName_sublist rest (s.name :: seen)).cons₂ s

theorem dedupByName_names : ∀ (l : List StudentRecord) (seen : List String),
    ((dedupByName l seen).map (fun r => r.name)).Nodup ∧
      ∀ r ∈ dedupByName l seen, r.name ∉ seen
  | [], seen => ⟨List.nodup_nil, by simp [dedupByName]⟩
  | s :: rest, seen => by
    by_cases h : s.name ∈ seen
    · simp only [dedupByName, if_pos h]
      exact dedupByName_names rest seen
    · simp only [dedupByName, if_neg h]
      obtain ⟨h1, h2⟩ := dedupByName_names rest (s.name :: seen)
      constructor
      · simp only [List.map_cons, List.nodup_cons]
        refine ⟨?_, h1⟩
        intro hmem
        obtain ⟨r, hr, hrn⟩ := List.mem_map.mp hmem
        exact (h2 r hr) (by rw [hrn]; exact List.mem_cons_self _ _)
      · intro r hr
        rcases List.mem_cons.mp hr with h' | h'
        · subst h'; exact h
        · exact fun hmem => (h2 r h') (List.mem_cons_of_mem _ hmem)

theorem dedupByName_min : ∀ (l : List StudentRecord) (seen : List String)
    (r : StudentRecord), l.Pairwise (fun a b => a.id ≤ b.id) → r ∈ l → r.name ∉ seen →
    ∃ q, q ∈ dedupByName l seen ∧ q.name = r.name ∧ q.id ≤ r.id
  | [], _, r, _, hr, _ => absurd hr (List.not_mem_nil r)
  | s :: rest, seen, r, hp, hr, hseen => by
    by_cases h : s.name ∈ seen
    · simp only [dedupByName, if_pos h]
      rcases List.mem_cons.mp hr with h' | h'
      · subst h'
        exact absurd h hseen
      · exact dedupByName_min rest seen r (List.Pairwise.of_cons hp) h' hseen
    · simp only [dedupByName, if_neg h]
      rcases List.mem_cons.mp hr with h' | h'
      · subst h'
        exact ⟨r, List.mem_cons_self _ _, rfl, le_refl _⟩
      · by_cases hn : r.name = s.name
        · refine ⟨s, List.mem_cons_self _ _, hn.symm, ?_⟩
          exact (List.pairwise_cons.mp hp).1 r h'
        · obtain ⟨q, hq, hqn, hqi⟩ := dedupByName_min rest (s.name :: seen) r
            (List.Pairwise.of_cons hp) h' (by
              intro hmem
              rcases List.mem_cons.mp hmem with hh | hh
              · exact hn hh
              · exact hseen hh)
          exact ⟨q, List.mem_cons_of_mem _ hq, hqn, hqi⟩

/-- C1: post-processing stable-sorts by id then deduplicates by name keeping
the first occurrence, so the final list is non-decreasing by id, no two
records share a name, and of two same-name records the kept one has an id no
larger than the smaller of the two. -/
theorem c1_postprocess_sort_dedup (students : List StudentRecord) :
    (postProcess students).Pairwise (fun a b => a.id ≤ b.id) ∧
    ((postProcess students).map (fun r => r.name)).Nodup ∧
    ∀ r1 r2 : StudentRecord, r1 ∈ students → r2 ∈ students → r1.name = r2.name →
      r1.id < r2.id →
      r2 ∉ postProcess students ∧
      ∃ q, q ∈ postProcess students ∧ q ∈ students ∧ q.name = r1.name ∧ q.id ≤ r1.id := by
  have hsorted := sortById_sorted students
  have hperm := sortById_perm students
  have hsub := dedupByName_sublist (sortById students) []
  have hnames := (dedupByName_names (sortById students) []).1
  refine ⟨List.Pairwise.sublist hsub hsorted, hnames, ?_⟩
  intro r1 r2 h1 h2 hname hid
  have h1' : r1 ∈ sortById students := hperm.mem_iff.mpr h1
  obtain ⟨q, hq, hqn, hqi⟩ := dedupByName_min (sortById students) [] r1 hsorted h1'
    (List.not_mem_nil _)
  have hqmem : q ∈ students := hperm.mem_iff.mp (hsub.subset hq)
  refine ⟨?_, q, hq, hqmem, hqn, hqi⟩
  intro hr2
  have hqr : q = r2 := List.inj_on_of_nodup_map hnames hq hr2 (by rw [hqn, hname])
  rw [hqr] at hqi
  omega

/-- Witness for C1 at the spec's duplicate-name scenario: ids 10 and 12 with
the same name keep the id-10 record. -/
theorem c1_postprocess_sort_dedup_witness :
    (⟨12, "s12", "Ahmed Ali", []⟩ : StudentRecord) ∉
        postProcess [⟨12, "s12", "Ahmed Ali", []⟩, ⟨10, "s10", "Ahmed Ali", []⟩] ∧
    ∃ q, q ∈ postProcess [⟨12, "s12", "Ahmed Ali", []⟩, ⟨10, "s10", "Ahmed Ali", []⟩] ∧
      q ∈ [(⟨12, "s12", "Ahmed Ali", []⟩ : StudentRecord), ⟨10, "s10", "Ahmed Ali", []⟩] ∧
      q.name = "Ahmed Ali" ∧ q.id ≤ 10 :=
  (c1_postprocess_sort_dedup [⟨12, "s12", "Ahmed Ali", []⟩, ⟨10, "s10", "Ahmed Ali", []⟩]).2.2
    ⟨10, "s10", "Ahmed Ali", []⟩ ⟨12, "s12", "Ahmed Ali", []⟩
    (by decide) (by decide) rfl (by decide)

/-- C2: a row yields a student record iff it has at least 8 cells, a pure
digit last cell, and a nonempty cleaned name cell free of the student-name
header label; the record is then exactly (int of last cell, second-to-last
cell, third-from-last cell, cells minus the trailing 6 reversed), and a
5-cell row is always skipped without error. -/
theorem c2_parse_row_iff (cells : List String) :
    (∀ r : StudentRecord, parse_row cells = some r ↔
      (8 ≤ cells.length ∧
       pyIsDigit (cellFromEnd cells 1) = true ∧
       cleanCell (cellFromEnd cells 3) ≠ "" ∧
       strContains (cleanCell (cellFromEnd cells 3)) "اسم الطالب" = false ∧
       r = ⟨parseNat (cellFromEnd cells 1), cleanCell (cellFromEnd cells 2),
            cleanCell (cellFromEnd cells 3), (cells.take (cells.length - 6)).reverse⟩)) ∧
    (cells.length = 5 → parse_row cells = none) := by
  constructor
  · intro r
    simp only [parse_row]
    split_ifs with h8 hd hname
    · simp only [Option.some_inj]
      constructor
      · intro h
        exact ⟨h8, hd, hname.1, hname.2, h.symm⟩
      · rintro ⟨_, _, _, _, hr⟩
        exact hr.symm
    · constructor
      · intro h; exact h.elim
      · rintro ⟨_, _, h3, h4, _⟩
        exact absurd ⟨h3, h4⟩ hname
    · constructor
      · intro h; exact h.elim
      · rintro ⟨_, h2, _, _, _⟩
        exact absurd h2 hd
    · constructor
      · intro h; exact h.elim
      · rintro ⟨h1, _, _, _, _⟩
        exact absurd h1 h8
  · intro h5
    simp only [parse_row]
    rw [if_neg (by omega)]

/-- Witness for C2: the spec's 5-cell row scenario is skipped. -/
theorem c2_parse_row_iff_witness :
    parse_row ["a", "b", "c", "d", "e"] = none :=
  (c2_parse_row_iff ["a", "b", "c", "d", "e"]).2 rfl

/-! ## Field-extraction fold lemmas -/

theorem dictHas_foldl_inputStep : ∀ (l : List InputElem) (acc : FieldMap)
    (k : Option String), dictHas acc k = true →
    dictHas (l.foldl inputStep acc) k = true
  | [], _, _, h => h
  | inp :: l, acc, k, h => by
    rw [List.foldl_cons]
    refine dictHas_foldl_inputStep l _ k ?_
    rcases hn : inp.name with _ | n
    · simpa [inputStep, hn] using h
    · by_cases hne : n = ""
      · simpa [inputStep, hn, hne] using h
      · simp only [inputStep, hn, if_neg hne]
        exact dictHas_insert_mono _ _ _ _ h

theorem dictHas_foldl_inputStep_mem : ∀ (l : List InputElem) (acc : FieldMap)
    (inp : InputElem) (n : String), inp ∈ l → inp.name = some n → n ≠ "" →
    dictHas (l.foldl inputStep acc) (some n) = true
  | [], _, _, _, h, _, _ => absurd h (List.not_mem_nil _)
  | i0 :: l, acc, inp, n, hmem, hn, hne => by
    rw [List.foldl_cons]
    rcases List.mem_cons.mp hmem with h | h
    · subst h
      refine dictHas_foldl_inputStep l _ (some n) ?_
      simp only [inputStep, hn, if_neg hne]
      exact dictHas_insert_self _ _ _
    · exact dictHas_foldl_inputStep_mem l _ inp n h hn hne

theorem dictLookup_foldl_inputStep_all : ∀ (l : List InputElem) (acc : FieldMap)
    (inp : InputElem) (n : String),
    (∀ i ∈ l, i.name = some n → i = inp) →
    dictLookup acc (some n) = some (inp.value.getD "") →
    dictLookup (l.foldl inputStep acc) (some n) = some (inp.value.getD "")
  | [], _, _, _, _, h => h
  | i0 :: l, acc, inp, n, hall, h => by
    rw [List.foldl_cons]
    refine dictLookup_foldl_inputStep_all l _ inp n
      (fun i hi => hall i (List.mem_cons_of_mem _ hi)) ?_
    rcases hn0 : i0.name with _ | m
    · simpa [inputStep, hn0] using h
    · by_cases hm : m = ""
      · simpa [inputStep, hn0, hm] using h
      · simp only [inputStep, hn0, if_neg hm]
        by_cases heq : (some m : Option String) = some n
        · have hmn : m = n := Option.some_inj.mp heq
          subst hmn
          have hi0 : i0 = inp := hall i0 (List.mem_cons_self _ _) hn0
          rw [dictLookup_insert_self, hi0]
        · rw [dictLookup_insert_ne _ _ heq]
          exact h

theorem dictLookup_foldl_inputStep : ∀ (l : List InputElem) (acc : FieldMap)
    (inp : InputElem) (n : String), inp ∈ l → inp.name = some n → n ≠ "" →
    (∀ i ∈ l, i.name = some n → i = inp) →
    dictLookup (l.foldl inputStep acc) (some n) = some (inp.value.getD "")
  | [], _, _, _, h, _, _, _ => absurd h (List.not_mem_nil _)
  | i0 :: l, acc, inp, n, hmem, hn, hne, hall => by
    rw [List.foldl_cons]
    rcases List.mem_cons.mp hmem with h | h
    · subst h
      refine dictLookup_foldl_inputStep_all l _ inp n
        (fun i hi hiname => hall i (List.mem_cons_of_mem _ hi) hiname) ?_
      simp only [inputStep, hn, if_neg hne]
      exact dictLookup_insert_self _ _ _
    · exact dictLookup_foldl_inputStep l _ inp n h hn hne
        (fun i hi => hall i (List.mem_cons_of_mem _ hi))

theorem mem_foldl_inputStep : ∀ (l : List InputElem) (acc : FieldMap)
    (kv : Option String × String), kv ∈ l.foldl inputStep acc →
    kv ∈ acc ∨ ∃ inp, inp ∈ l ∧ inp.name = kv.1 ∧ kv.2 = inp.value.getD ""
  | [], _, _, h => Or.inl h
  | i0 :: l, acc, kv, h => by
    rw [List.foldl_cons] at h
    rcases mem_foldl_inputStep l _ kv h with h' | ⟨inp, hi, hn, hv⟩
    · rcases hn0 : i0.name with _ | m
      · simp only [inputStep, hn0] at h'
        exact Or.inl h'
      · by_cases hm : m = ""
        · simp only [inputStep, hn0, if_pos hm] at h'
          exact Or.inl h'
        · simp only [inputStep, hn0, if_neg hm] at h'
          rcases mem_dictInsert _ _ _ _ h' with h'' | h''
          · subst h''
            exact Or.inr ⟨i0, List.mem_cons_self _ _, hn0, rfl⟩
          · exact Or.inl h''
    · exact Or.inr ⟨inp, List.mem_cons_of_mem _ hi, hn, hv⟩

theorem dictHas_foldl_selectStep : ∀ (l : List SelectElem) (acc : FieldMap)
    (k : Option String), dictHas acc k = true →
    dictHas (l.foldl selectStep acc) k = true
  | [], _, _, h => h
  | sel :: l, acc, k, h => by
    rw [List.foldl_cons]
    refine dictHas_foldl_selectStep l _ k ?_
    rcases hn : sel.name with _ | n
    · simpa [selectStep, hn] using h
    · by_cases hne : n = ""
      · simpa [selectStep, hn, hne] using h
      · simp only [selectStep, hn, if_neg hne]
        exact dictHas_insert_mono _ _ _ _ h

theorem dictHas_foldl_selectStep_mem : ∀ (l : List SelectElem) (acc : FieldMap)
    (sel : SelectElem) (n : String), sel ∈ l → sel.name = some n → n ≠ "" →
    dictHas (l.foldl selectStep acc) (some n) = true
  | [], _, _, _, h, _, _ => absurd h (List.not_mem_nil _)
  | s0 :: l, acc, sel, n, hmem, hn, hne => by
    rw [List.foldl_cons]
    rcases List.mem_cons.mp hmem with h | h
    · subst h
      refine dictHas_foldl_selectStep l _ (some n) ?_
      simp only [selectStep, hn, if_neg hne]
      exact dictHas_insert_self _ _ _
    · exact dictHas_foldl_selectStep_mem l _ sel n h hn hne

/-! ## Payload-building fold lemmas -/

theorem dictHas_delete_ne : ∀ (fm : FieldMap) {k' k : Option String}, k ≠ k' →
    dictHas (dictDelete fm k') k = dictHas fm k
  | [], _, _, _ => rfl
  | kv :: rest, k', k, h => by
    by_cases hkv : kv.1 = k'
    · have hne : ¬kv.1 = k := fun hh => h (hh.symm.trans hkv)
      rw [dictDelete_cons_pos hkv, dictHas_cons, dictHas_delete_ne rest h,
        decide_eq_false hne]
      simp
    · rw [dictDelete_cons_neg hkv, dictHas_cons, dictHas_cons,
        dictHas_delete_ne rest h]

theorem dictHas_foldl_requiredStep : ∀ (ds : List String) (fd : FieldMap)
    (k : Option String), dictHas fd k = true →
    dictHas (ds.foldl requiredStep fd) k = true
  | [], _, _, h => h
  | d :: ds, fd, k, h => by
    rw [List.foldl_cons]
    refine dictHas_foldl_requiredStep ds _ k ?_
    by_cases hd : dictHas fd (some d) = true
    · simpa [requiredStep, hd] using h
    · rw [show requiredStep fd d = dictInsert fd (some d) "0" by simp [requiredStep, hd]]
      exact dictHas_insert_mono _ _ _ _ h

theorem dictLookup_foldl_requiredStep_has : ∀ (ds : List String) (fd : FieldMap)
    (k : Option String), dictHas fd k = true →
    dictLookup (ds.foldl requiredStep fd) k = dictLookup fd k
  | [], _, _, _ => rfl
  | d :: ds, fd, k, h => by
    rw [List.foldl_cons]
    by_cases hd : dictHas fd (some d) = true
    · rw [show requiredStep fd d = fd by simp [requiredStep, hd]]
      exact dictLookup_foldl_requiredStep_has ds fd k h
    · have hne : (some d : Option String) ≠ k := fun he => hd (by rw [he]; exact h)
      rw [show requiredStep fd d = dictInsert fd (some d) "0" by simp [requiredStep, hd]]
      rw [dictLookup_foldl_requiredStep_has ds _ k (dictHas_insert_mono _ _ _ _ h)]
      exact dictLookup_insert_ne _ _ hne

theorem dictLookup_foldl_requiredStep_ne : ∀ (ds : List String) (fd : FieldMap)
    (k : Option String), (∀ d ∈ ds, (some d : Option String) ≠ k) →
    dictLookup (ds.foldl requiredStep fd) k = dictLookup fd k
  | [], _, _, _ => rfl
  | d :: ds, fd, k, hall => by
    rw [List.foldl_cons, dictLookup_foldl_requiredStep_ne ds _ k
      (fun d' hd' => hall d' (List.mem_cons_of_mem _ hd'))]
    by_cases hd : dictHas fd (some d) = true
    · simp [requiredStep, hd]
    · rw [show requiredStep fd d = dictInsert fd (some d) "0" by simp [requiredStep, hd]]
      exact dictLookup_insert_ne _ _ (hall d (List.mem_cons_self _ _))

theorem dictHas_foldl_requiredStep_ne : ∀ (ds : List String) (fd : FieldMap)
    (k : Option String), (∀ d ∈ ds, (some d : Option String) ≠ k) →
    dictHas fd k = false → dictHas (ds.foldl requiredStep fd) k = false
  | [], _, _, _, h => h
  | d :: ds, fd, k, hall, h => by
    rw [List.foldl_cons]
    refine dictHas_foldl_requiredStep_ne ds _ k
      (fun d' hd' => hall d' (List.mem_cons_of_mem _ hd')) ?_
    by_cases hd : dictHas fd (some d) = true
    · simpa [requiredStep, hd] using h
    · rw [show requiredStep fd d = dictInsert fd (some d) "0" by simp [requiredStep, hd]]
      rw [dictHas_insert_ne _ _ (hall d (List.mem_cons_self _ _))]
      exact h

theorem dictLookup_foldl_requiredStep_missing : ∀ (ds : List String) (fd : FieldMap)
    (d : String), d ∈ ds → dictHas fd (some d) = false →
    dictLookup (ds.foldl requiredStep fd) (some d) = some "0"
  | [], _, _, h, _ => absurd h (List.not_mem_nil _)
  | d0 :: ds, fd, d, hmem, h => by
    rw [List.foldl_cons]
    by_cases he : d0 = d
    · subst he
      have h' : ¬dictHas fd (some d0) = true := by simp [h]
      rw [show requiredStep fd d0 = dictInsert fd (some d0) "0" by simp [requiredStep, h']]
      rw [dictLookup_foldl_requiredStep_has ds _ _ (dictHas_insert_self _ _ _)]
      exact dictLookup_insert_self _ _ _
    · have h' : d ∈ ds := by
        rcases List.mem_cons.mp hmem with hh | hh
        · exact absurd hh.symm he
        · exact hh
      by_cases hd0 : dictHas fd (some d0) = true
      · rw [show requiredStep fd d0 = fd by simp [requiredStep, hd0]]
        exact dictLookup_foldl_requiredStep_missing ds fd d h' h
      · rw [show requiredStep fd d0 = dictInsert fd (some d0) "0" by simp [requiredStep, hd0]]
        refine dictLookup_foldl_requiredStep_missing ds _ d h' ?_
        rw [dictHas_insert_ne _ _ (fun hh => he (Option.some_inj.mp hh))]
        exact h

theorem applyUpdates_skip (p : Page) : ∀ (updates : List (String × String))
    (fd : FieldMap), (∀ kv ∈ updates, findSelectById p kv.1 = none) →
    applyUpdates p fd updates = fd
  | [], _, _ => rfl
  | kv :: updates, fd, h => by
    simp only [applyUpdates, List.foldl_cons, h kv (List.mem_cons_self _ _)]
    exact applyUpdates_skip p updates fd
      (fun kv' h' => h kv' (List.mem_cons_of_mem _ h'))

theorem dictHas_applyUpdates_ne (p : Page) (b : Option String) :
    ∀ (updates : List (String × String)) (fd : FieldMap),
    (∀ kv ∈ updates, ∀ sel, findSelectById p kv.1 = some sel → sel.name ≠ b) →
    dictHas fd b = false → dictHas (applyUpdates p fd updates) b = false
  | [], _, _, h => h
  | kv :: updates, fd, hall, h => by
    simp only [applyUpdates, List.foldl_cons]
    refine dictHas_applyUpdates_ne p b updates _
      (fun kv' h' => hall kv' (List.mem_cons_of_mem _ h')) ?_
    rcases hf : findSelectById p kv.1 with _ | sel
    · simpa [hf] using h
    · simp only [hf]
      rw [dictHas_insert_ne _ _ (hall kv (List.mem_cons_self _ _) sel hf)]
      exact h

/-! ## Claim C3 -/

/-- A page with an input whose `name` attribute is the empty string and a
named select with one (unselected) option. -/
def pageC3 : Page :=
  { inputs := [⟨some "", some "v"⟩]
    selects := [⟨some "sid", some "s", [⟨some "7", "x", false⟩]⟩]
    rows := []
    resultsTable := none }

/-- C3 counterexample: on `pageC3`, std_list's field extraction returns an
entry derived from the `<select>` (the claim says none exist) and no entry
for the input whose name attribute is present but empty (the claim promises
an entry for every input that has a name attribute). -/
theorem c3_counterexample :
    get_all_form_inputs pageC3 = [(some "s", "7")] ∧
    dictHas (get_all_form_inputs pageC3) (some "") = false := by decide

/-- C3 (amended): both extraction variants hold an entry for every `<input>`
whose name is present and nonempty (with the value attribute defaulting to
the empty string, witnessed when that input is the only one with its name);
every entry of gui_std's `get_form_data` originates from an `<input>` (never
a `<select>`); std_list's `get_all_form_inputs` additionally holds an entry
for every `<select>` whose name is present and nonempty. -/
theorem c3_extract_fields_amended (p : Page) :
    (∀ inp, inp ∈ p.inputs → ∀ n, inp.name = some n → n ≠ "" →
      dictHas (get_form_data p) (some n) = true ∧
      dictHas (get_all_form_inputs p) (some n) = true) ∧
    (∀ kv, kv ∈ get_form_data p →
      ∃ inp, inp ∈ p.inputs ∧ inp.name = kv.1 ∧ kv.2 = inp.value.getD "") ∧
    (∀ inp n, inp ∈ p.inputs → inp.name = some n → n ≠ "" →
      (∀ i ∈ p.inputs, i.name = some n → i = inp) →
      dictLookup (get_form_data p) (some n) = some (inp.value.getD "")) ∧
    (∀ sel, sel ∈ p.selects → ∀ n, sel.name = some n → n ≠ "" →
      dictHas (get_all_form_inputs p) (some n) = true) := by
  refine ⟨?_, ?_, ?_, ?_⟩
  · intro inp hmem n hn hne
    exact ⟨dictHas_foldl_inputStep_mem p.inputs [] inp n hmem hn hne,
      dictHas_foldl_selectStep _ _ _
        (dictHas_foldl_inputStep_mem p.inputs [] inp n hmem hn hne)⟩
  · intro kv hkv
    rcases mem_foldl_inputStep p.inputs [] kv hkv with h | h
    · exact absurd h (List.not_mem_nil _)
    · exact h
  · intro inp n hmem hn hne hall
    exact dictLookup_foldl_inputStep p.inputs [] inp n hmem hn hne hall
  · intro sel hmem n hn hne
    exact dictHas_foldl_selectStep_mem p.selects _ sel n hmem hn hne

/-- A small concrete page for the C3 witness. -/
def pageW3 : Page :=
  { inputs := [⟨some "u", none⟩]
    selects := [⟨some "sid", some "s", []⟩]
    rows := []
    resultsTable := none }

/-- Witness for the amended C3 on `pageW3`. -/
theorem c3_extract_fields_amended_witness :
    dictHas (get_form_data pageW3) (some "u") = true ∧
    dictLookup (get_form_data pageW3) (some "u") = some "" ∧
    dictHas (get_all_form_inputs pageW3) (some "s") = true :=
  ⟨((c3_extract_fields_amended pageW3).1 ⟨some "u", none⟩ (by decide) "u" rfl
      (by decide)).1,
   (c3_extract_fields_amended pageW3).2.2.1 ⟨some "u", none⟩ "u" (by decide) rfl
      (by decide) (by decide),
   (c3_extract_fields_amended pageW3).2.2.2 ⟨some "sid", some "s", []⟩ (by decide) "s"
      rfl (by decide)⟩

/-! ## Claim C4 -/

theorem applySelections_nil (p : Page) (fd : FieldMap) :
    applySelections p fd [] = fd := rfl

/-- A page holding the hidden `__VIEWSTATE` input and the report button
input, with no selects. -/
def pageC4 : Page :=
  { inputs := [⟨some "__VIEWSTATE", some "vs"⟩, ⟨some reportButtonKey, some "btn"⟩]
    selects := []
    rows := []
    resultsTable := none }

/-- C4 counterexample: with an override whose element id is absent from the
page, the built payload is NOT the extracted FieldMap with only
`__EVENTTARGET` added — the report button entry present in the extracted
fields has been removed as well. -/
theorem c4_counterexample :
    dictHas (get_form_data pageC4) (some reportButtonKey) = true ∧
    make_post_payload pageC4 [] [("missing", "x")] "missing" =
      some [(some "__VIEWSTATE", "vs"), (some "__EVENTTARGET", "")] ∧
    dictLookup (dictInsert (get_form_data pageC4) (some "__EVENTTARGET") "")
      (some reportButtonKey) = some "btn" := by decide

/-- C4 (amended): when every override references an element id with no select
on the page, both payload builders silently skip the overrides and raise no
error; the GUI payload (with no pending cascade selections) is the extracted
FieldMap with `__EVENTTARGET` set to the empty string and the report button
field removed when present, all other keys unchanged; the CLI payload
additionally sets `__EVENTARGUMENT`/`__LASTFOCUS` to empty strings and
defaults absent required dropdown fields to `"0"`. -/
theorem c4_absent_override_amended (p : Page) (updates : List (String × String))
    (et : String)
    (hvs : (p.inputs.find? (fun i => i.name = some "__VIEWSTATE")).isSome = true)
    (hupd : ∀ kv ∈ updates, findSelectById p kv.1 = none)
    (het : findSelectById p et = none) :
    ∃ fm, make_post_payload p [] updates et = some fm ∧
      dictLookup fm (some "__EVENTTARGET") = some "" ∧
      dictHas fm (some reportButtonKey) = false ∧
      (∀ k, k ≠ some "__EVENTTARGET" → k ≠ some reportButtonKey →
        dictLookup fm k = dictLookup (get_form_data p) k) ∧
      dictLookup (make_post_request_payload p updates et) (some "__EVENTTARGET") =
        some "" ∧
      (∀ k, k ≠ some "__EVENTTARGET" → k ≠ some "__EVENTARGUMENT" →
        k ≠ some "__LASTFOCUS" → k ≠ some reportButtonKey →
        (∀ d ∈ required_dropdowns, (some d : Option String) ≠ k) →
        dictLookup (make_post_request_payload p updates et) k =
          dictLookup (get_all_form_inputs p) k) ∧
      (∀ d ∈ required_dropdowns, dictHas (get_all_form_inputs p) (some d) = false →
        dictLookup (make_post_request_payload p updates et) (some d) = some "0") := by
  have hvs' : (p.inputs.find? (fun i => i.name = some "__VIEWSTATE")).isNone = false := by
    rcases hf : p.inputs.find? (fun i => i.name = some "__VIEWSTATE") with _ | v
    · rw [hf] at hvs; simp at hvs
    · rw [hf]; rfl
  have hetn : eventTargetName p et = "" := by simp [eventTargetName, het]
  -- the CLI payload, with the overrides skipped
  have hstd : make_post_request_payload p updates et =
      dictInsert (dictInsert (dictInsert
        (required_dropdowns.foldl requiredStep
          (if dictHas (get_all_form_inputs p) (some reportButtonKey)
           then dictDelete (get_all_form_inputs p) (some reportButtonKey)
           else get_all_form_inputs p))
        (some "__EVENTTARGET") "") (some "__EVENTARGUMENT") "") (some "__LASTFOCUS") "" := by
    simp only [make_post_request_payload]
    rw [applyUpdates_skip p updates _ hupd, hetn]
  have hbbLook : ∀ k, k ≠ some reportButtonKey →
      dictLookup (if dictHas (get_all_form_inputs p) (some reportButtonKey)
        then dictDelete (get_all_form_inputs p) (some reportButtonKey)
        else get_all_form_inputs p) k = dictLookup (get_all_form_inputs p) k := by
    intro k hk
    by_cases hb : dictHas (get_all_form_inputs p) (some reportButtonKey) = true
    · rw [if_pos hb]; exact dictLookup_delete_ne _ hk
    · rw [if_neg hb]
  have hbbHas : ∀ k, k ≠ some reportButtonKey →
      dictHas (if dictHas (get_all_form_inputs p) (some reportButtonKey)
        then dictDelete (get_all_form_inputs p) (some reportButtonKey)
        else get_all_form_inputs p) k = dictHas (get_all_form_inputs p) k := by
    intro k hk
    by_cases hb : dictHas (get_all_form_inputs p) (some reportButtonKey) = true
    · rw [if_pos hb]; exact dictHas_delete_ne _ hk
    · rw [if_neg hb]
  have hdne : ∀ d ∈ required_dropdowns, d ≠ "__EVENTTARGET" ∧ d ≠ "__EVENTARGUMENT" ∧
      d ≠ "__LASTFOCUS" ∧ d ≠ reportButtonKey := by decide
  have hstdET : dictLookup (make_post_request_payload p updates et)
      (some "__EVENTTARGET") = some "" := by
    rw [hstd, dictLookup_insert_ne _ _ (by decide), dictLookup_insert_ne _ _ (by decide),
      dictLookup_insert_self]
  have hstdOther : ∀ k, k ≠ some "__EVENTTARGET" → k ≠ some "__EVENTARGUMENT" →
      k ≠ some "__LASTFOCUS" → k ≠ some reportButtonKey →
      (∀ d ∈ required_dropdowns, (some d : Option String) ≠ k) →
      dictLookup (make_post_request_payload p updates et) k =
        dictLookup (get_all_form_inputs p) k := by
    intro k hk1 hk2 hk3 hk4 hk5
    rw [hstd, dictLookup_insert_ne _ _ (fun h => hk3 h.symm),
      dictLookup_insert_ne _ _ (fun h => hk2 h.symm),
      dictLookup_insert_ne _ _ (fun h => hk1 h.symm),
      dictLookup_foldl_requiredStep_ne _ _ _ hk5]
    exact hbbLook k hk4
  have hstdMissing : ∀ d ∈ required_dropdowns,
      dictHas (get_all_form_inputs p) (some d) = false →
      dictLookup (make_post_request_payload p updates et) (some d) = some "0" := by
    intro d hd hmiss
    obtain ⟨hd1, hd2, hd3, hd4⟩ := hdne d hd
    rw [hstd, dictLookup_insert_ne _ _ (fun h => hd3 (Option.some_inj.mp h).symm),
      dictLookup_insert_ne _ _ (fun h => hd2 (Option.some_inj.mp h).symm),
      dictLookup_insert_ne _ _ (fun h => hd1 (Option.some_inj.mp h).symm),
      dictLookup_foldl_requiredStep_missing _ _ d hd]
    rw [hbbHas (some d) (fun h => hd4 (Option.some_inj.mp h))]
    exact hmiss
  -- the GUI payload
  by_cases hbtn : dictHas (dictInsert (get_form_data p) (some "__EVENTTARGET") "")
      (some reportButtonKey) = true
  · refine ⟨dictDelete (dictInsert (get_form_data p) (some "__EVENTTARGET") "")
        (some reportButtonKey), ?_, ?_, ?_, ?_, hstdET, hstdOther, hstdMissing⟩
    · simp only [make_post_payload, hvs', Bool.false_eq_true, if_false]
      rw [applySelections_nil, applyUpdates_skip p updates _ hupd, hetn, if_pos hbtn]
    · rw [dictLookup_delete_ne _ (by decide), dictLookup_insert_self]
    · exact dictHas_delete_self _ _
    · intro k hk1 hk2
      rw [dictLookup_delete_ne _ hk2, dictLookup_insert_ne _ _ (fun h => hk1 h.symm)]
  · refine ⟨dictInsert (get_form_data p) (some "__EVENTTARGET") "", ?_, ?_, ?_, ?_,
      hstdET, hstdOther, hstdMissing⟩
    · simp only [make_post_payload, hvs', Bool.false_eq_true, if_false]
      rw [applySelections_nil, applyUpdates_skip p updates _ hupd, hetn, if_neg hbtn]
    · exact dictLookup_insert_self _ _ _
    · simpa using hbtn
    · intro k hk1 _
      rw [dictLookup_insert_ne _ _ (fun h => hk1 h.symm)]

/-- Witness for the amended C4 on `pageC4` with an override referencing an id
absent from the page. -/
theorem c4_absent_override_amended_witness :
    ∃ fm, make_post_payload pageC4 [] [("missing", "x")] "missing" = some fm ∧
      dictLookup fm (some "__EVENTTARGET") = some "" ∧
      dictHas fm (some reportButtonKey) = false ∧
      (∀ k, k ≠ some "__EVENTTARGET" → k ≠ some reportButtonKey →
        dictLookup fm k = dictLookup (get_form_data pageC4) k) ∧
      dictLookup (make_post_request_payload pageC4 [("missing", "x")] "missing")
        (some "__EVENTTARGET") = some "" ∧
      (∀ k, k ≠ some "__EVENTTARGET" → k ≠ some "__EVENTARGUMENT" →
        k ≠ some "__LASTFOCUS" → k ≠ some reportButtonKey →
        (∀ d ∈ required_dropdowns, (some d : Option String) ≠ k) →
        dictLookup (make_post_request_payload pageC4 [("missing", "x")] "missing") k =
          dictLookup (get_all_form_inputs pageC4) k) ∧
      (∀ d ∈ required_dropdowns, dictHas (get_all_form_inputs pageC4) (some d) = false →
        dictLookup (make_post_request_payload pageC4 [("missing", "x")] "missing")
          (some d) = some "0") :=
  c4_absent_override_amended pageC4 [("missing", "x")] "missing" (by decide) (by decide)
    (by decide)

/-! ## Claim C5 -/

/-- A page whose only select carries the report button's field name. -/
def pageC5 : Page :=
  { inputs := []
    selects := [⟨some "sneaky", some reportButtonKey, []⟩]
    rows := []
    resultsTable := none }

/-- C5 counterexample: in the CLI variant the report button field is deleted
before the overrides are applied, so an override resolving to a select named
with the button's field name re-introduces it — the payload contains the
report button field, contradicting "never contains". -/
theorem c5_counterexample :
    dictLookup (make_post_request_payload pageC5 [("sneaky", "x")] "other")
      (some reportButtonKey) = some "x" := by decide

/-- C5 (amended): `__EVENTTARGET` is the name of the select whose id is the
event target (empty when the select or its name is absent) in both payload
builders; the GUI payload never contains the report button field (its removal
follows every override); the CLI payload lacks it provided no applied
override resolves to a select named with the button's field name. -/
theorem c5_event_target_amended (p : Page) (selections updates : List (String × String))
    (et : String)
    (hvs : (p.inputs.find? (fun i => i.name = some "__VIEWSTATE")).isSome = true) :
    ∃ fm, make_post_payload p selections updates et = some fm ∧
      (∀ sel, findSelectById p et = some sel →
        dictLookup fm (some "__EVENTTARGET") = some (sel.name.getD "")) ∧
      (findSelectById p et = none → dictLookup fm (some "__EVENTTARGET") = some "") ∧
      dictHas fm (some reportButtonKey) = false ∧
      (∀ sel, findSelectById p et = some sel →
        dictLookup (make_post_request_payload p updates et) (some "__EVENTTARGET") =
          some (sel.name.getD "")) ∧
      (findSelectById p et = none →
        dictLookup (make_post_request_payload p updates et) (some "__EVENTTARGET") =
          some "") ∧
      ((∀ kv ∈ updates, ∀ sel, findSelectById p kv.1 = some sel →
          sel.name ≠ some reportButtonKey) →
        dictHas (make_post_request_payload p updates et) (some reportButtonKey) = false) := by
  have hvs' : (p.inputs.find? (fun i => i.name = some "__VIEWSTATE")).isNone = false := by
    rcases hf : p.inputs.find? (fun i => i.name = some "__VIEWSTATE") with _ | v
    · rw [hf] at hvs; simp at hvs
    · rw [hf]; rfl
  have hetn1 : ∀ sel, findSelectById p et = some sel →
      eventTargetName p et = sel.name.getD "" := by
    intro sel h; simp [eventTargetName, h]
  have hetn2 : findSelectById p et = none → eventTargetName p et = "" := by
    intro h; simp [eventTargetName, h]
  have hpay : make_post_payload p selections updates et =
      some (if dictHas (dictInsert
              (applyUpdates p (applySelections p (get_form_data p) selections) updates)
              (some "__EVENTTARGET") (eventTargetName p et)) (some reportButtonKey)
            then dictDelete (dictInsert
              (applyUpdates p (applySelections p (get_form_data p) selections) updates)
              (some "__EVENTTARGET") (eventTargetName p et)) (some reportButtonKey)
            else dictInsert
              (applyUpdates p (applySelections p (get_form_data p) selections) updates)
              (some "__EVENTTARGET") (eventTargetName p et)) := by
    simp only [make_post_payload, hvs', Bool.false_eq_true, if_false]
  have hfmET : dictLookup (if dictHas (dictInsert
        (applyUpdates p (applySelections p (get_form_data p) selections) updates)
        (some "__EVENTTARGET") (eventTargetName p et)) (some reportButtonKey)
      then dictDelete (dictInsert
        (applyUpdates p (applySelections p (get_form_data p) selections) updates)
        (some "__EVENTTARGET") (eventTargetName p et)) (some reportButtonKey)
      else dictInsert
        (applyUpdates p (applySelections p (get_form_data p) selections) updates)
        (some "__EVENTTARGET") (eventTargetName p et)) (some "__EVENTTARGET") =
      some (eventTargetName p et) := by
    by_cases hbtn : dictHas (dictInsert
        (applyUpdates p (applySelections p (get_form_data p) selections) updates)
        (some "__EVENTTARGET") (eventTargetName p et)) (some reportButtonKey) = true
    · rw [if_pos hbtn, dictLookup_delete_ne _ (by decide), dictLookup_insert_self]
    · rw [if_neg hbtn, dictLookup_insert_self]
  have hfmBtn : dictHas (if dictHas (dictInsert
        (applyUpdates p (applySelections p (get_form_data p) selections) updates)
        (some "__EVENTTARGET") (eventTargetName p et)) (some reportButtonKey)
      then dictDelete (dictInsert
        (applyUpdates p (applySelections p (get_form_data p) selections) updates)
        (some "__EVENTTARGET") (eventTargetName p et)) (some reportButtonKey)
      else dictInsert
        (applyUpdates p (applySelections p (get_form_data p) selections) updates)
        (some "__EVENTTARGET") (eventTargetName p et)) (some reportButtonKey) = false := by
    by_cases hbtn : dictHas (dictInsert
        (applyUpdates p (applySelections p (get_form_data p) selections) updates)
        (some "__EVENTTARGET") (eventTargetName p et)) (some reportButtonKey) = true
    · rw [if_pos hbtn]; exact dictHas_delete_self _ _
    · rw [if_neg hbtn]; simpa using hbtn
  have hstd : make_post_request_payload p updates et =
      dictInsert (dictInsert (dictInsert
        (applyUpdates p (required_dropdowns.foldl requiredStep
          (if dictHas (get_all_form_inputs p) (some reportButtonKey)
           then dictDelete (get_all_form_inputs p) (some reportButtonKey)
           else get_all_form_inputs p)) updates)
        (some "__EVENTTARGET") (eventTargetName p et)) (some "__EVENTARGUMENT") "")
      (some "__LASTFOCUS") "" := by
    simp only [make_post_request_payload]
  have hstdET : dictLookup (make_post_request_payload p updates et)
      (some "__EVENTTARGET") = some (eventTargetName p et) := by
    rw [hstd, dictLookup_insert_ne _ _ (by decide), dictLookup_insert_ne _ _ (by decide),
      dictLookup_insert_self]
  have hstdBtn : (∀ kv ∈ updates, ∀ sel, findSelectById p kv.1 = some sel →
      sel.name ≠ some reportButtonKey) →
      dictHas (make_post_request_payload p updates et) (some reportButtonKey) = false := by
    intro hno
    rw [hstd, dictHas_insert_ne _ _ (by decide), dictHas_insert_ne _ _ (by decide),
      dictHas_insert_ne _ _ (by decide)]
    refine dictHas_applyUpdates_ne p _ updates _ hno ?_
    refine dictHas_foldl_requiredStep_ne _ _ _ (by decide) ?_
    by_cases hb : dictHas (get_all_form_inputs p) (some reportButtonKey) = true
    · rw [if_pos hb]; exact dictHas_delete_self _ _
    · rw [if_neg hb]; simpa using hb
  refine ⟨_, hpay, ?_, ?_, hfmBtn, ?_, ?_, hstdBtn⟩
  · intro sel h
    rw [hfmET, hetn1 sel h]
  · intro h
    rw [hfmET, hetn2 h]
  · intro sel h
    rw [hstdET, hetn1 sel h]
  · intro h
    rw [hstdET, hetn2 h]

/-- A page with the `__VIEWSTATE` input and one named select, for the C5
witness. -/
def pageW5 : Page :=
  { inputs := [⟨some "__VIEWSTATE", some "vs"⟩]
    selects := [⟨some "eid", some "nm", []⟩]
    rows := []
    resultsTable := none }

/-- Witness for the amended C5 on `pageW5`. -/
theorem c5_event_target_amended_witness :
    ∃ fm, make_post_payload pageW5 [] [] "eid" = some fm ∧
      (∀ sel, findSelectById pageW5 "eid" = some sel →
        dictLookup fm (some "__EVENTTARGET") = some (sel.name.getD "")) ∧
      (findSelectById pageW5 "eid" = none →
        dictLookup fm (some "__EVENTTARGET") = some "") ∧
      dictHas fm (some reportButtonKey) = false ∧
      (∀ sel, findSelectById pageW5 "eid" = some sel →
        dictLookup (make_post_request_payload pageW5 [] "eid") (some "__EVENTTARGET") =
          some (sel.name.getD "")) ∧
      (findSelectById pageW5 "eid" = none →
        dictLookup (make_post_request_payload pageW5 [] "eid") (some "__EVENTTARGET") =
          some "") ∧
      ((∀ kv ∈ ([] : List (String × String)), ∀ sel, findSelectById pageW5 kv.1 = some sel →
          sel.name ≠ some reportButtonKey) →
        dictHas (make_post_request_payload pageW5 [] "eid") (some reportButtonKey) = false) :=
  c5_event_target_amended pageW5 [] [] "eid" (by decide)

/-! ## Claim C6 -/

theorem extract_options_filter (opts : List OptionElem) :
    (opts.filterMap (fun opt =>
      let val := opt.value.getD ""
      let txt := pyStrip opt.label
      if val ≠ "" ∧ val ≠ "0" ∧ strContains txt "اختر" = false ∧
         strStarts txt "Select" = false
      then some (val, txt) else none)) =
    (opts.map (fun opt => (opt.value.getD "", pyStrip opt.label))).filter
      (fun e => !isPlaceholder e) := by
  induction opts with
  | nil => rfl
  | cons o opts ih =>
    rw [List.filterMap_cons, List.map_cons, List.filter_cons]
    by_cases h1 : o.value.getD "" = ""
    · have hP : (!isPlaceholder (o.value.getD "", pyStrip o.label)) = false := by
        simp [isPlaceholder, h1]
      have hnC : ¬(o.value.getD "" ≠ "" ∧ o.value.getD "" ≠ "0" ∧
          strContains (pyStrip o.label) "اختر" = false ∧
          strStarts (pyStrip o.label) "Select" = false) := fun hc => hc.1 h1
      rw [if_neg hnC, hP]
      simp only [Bool.false_eq_true, if_false]
      exact ih
    · by_cases h2 : o.value.getD "" = "0"
      · have hP : (!isPlaceholder (o.value.getD "", pyStrip o.label)) = false := by
          simp [isPlaceholder, h2]
        have hnC : ¬(o.value.getD "" ≠ "" ∧ o.value.getD "" ≠ "0" ∧
            strContains (pyStrip o.label) "اختر" = false ∧
            strStarts (pyStrip o.label) "Select" = false) := fun hc => hc.2.1 h2
        rw [if_neg hnC, hP]
        simp only [Bool.false_eq_true, if_false]
        exact ih
      · by_cases h3 : strContains (pyStrip o.label) "اختر" = true
        · have hP : (!isPlaceholder (o.value.getD "", pyStrip o.label)) = false := by
            simp [isPlaceholder, h3]
          have hnC : ¬(o.value.getD "" ≠ "" ∧ o.value.getD "" ≠ "0" ∧
              strContains (pyStrip o.label) "اختر" = false ∧
              strStarts (pyStrip o.label) "Select" = false) := by
            intro hc
            rw [hc.2.2.1] at h3
            exact Bool.noConfusion h3
          rw [if_neg hnC, hP]
          simp only [Bool.false_eq_true, if_false]
          exact ih
        · by_cases h4 : strStarts (pyStrip o.label) "Select" = true
          · have hP : (!isPlaceholder (o.value.getD "", pyStrip o.label)) = false := by
              simp [isPlaceholder, h4]
            have hnC : ¬(o.value.getD "" ≠ "" ∧ o.value.getD "" ≠ "0" ∧
                strContains (pyStrip o.label) "اختر" = false ∧
                strStarts (pyStrip o.label) "Select" = false) := by
              intro hc
              rw [hc.2.2.2] at h4
              exact Bool.noConfusion h4
            rw [if_neg hnC, hP]
            simp only [Bool.false_eq_true, if_false]
            exact ih
          · have hC : o.value.getD "" ≠ "" ∧ o.value.getD "" ≠ "0" ∧
                strContains (pyStrip o.label) "اختر" = false ∧
                strStarts (pyStrip o.label) "Select" = false :=
              ⟨h1, h2, by simpa using h3, by simpa using h4⟩
            have hP : (!isPlaceholder (o.value.getD "", pyStrip o.label)) = true := by
              simp only [isPlaceholder, Bool.not_eq_true', Bool.or_eq_false_iff,
                decide_eq_false_iff_not]
              exact ⟨⟨⟨h1, h2⟩, by simpa using h3⟩, by simpa using h4⟩
            rw [if_pos hC, hP]
            exact congrArg (List.cons _) ih

/-- C6: the cleanup filter removes exactly the placeholder entries — value
empty or `"0"`, label containing the locale placeholder marker, or label
starting with `"Select"` — and the survivors keep their original relative
order. -/
theorem c6_cleanup_filter (p : Page) (eid : String) :
    extract_options p eid = (optionEntries p eid).filter (fun e => !isPlaceholder e) ∧
    (extract_options p eid).Sublist (optionEntries p eid) := by
  have hmain : extract_options p eid =
      (optionEntries p eid).filter (fun e => !isPlaceholder e) := by
    rcases hf : findSelectById p eid with _ | sel
    · simp [extract_options, optionEntries, hf]
    · simp only [extract_options, optionEntries, hf]
      exact extract_options_filter sel.options
  exact ⟨hmain, hmain ▸ List.filter_sublist _⟩

/-! ## Claim C7 -/

/-- The spec's synthetic Year select: a placeholder plus five years. -/
def pageC7 : Page :=
  { inputs := []
    selects := [⟨some yearId, some "yr",
      [⟨some "0", "اختر", false⟩, ⟨some "5", "2023", false⟩, ⟨some "6", "2022", false⟩,
       ⟨some "7", "2021", false⟩, ⟨some "8", "2020", false⟩, ⟨some "9", "2019", false⟩]⟩]
    rows := []
    resultsTable := none }

/-- C7: the Year step is the first 4 entries of the cleaned list in original
order (fewer only when fewer exist), and the spec's synthetic select yields
exactly the four most recent years. -/
theorem c7_year_step (p : Page) :
    year_step p = (extract_options p yearId).take 4 ∧
    (year_step p).length = min 4 (extract_options p yearId).length ∧
    year_step pageC7 = [("5", "2023"), ("6", "2022"), ("7", "2021"), ("8", "2020")] := by
  refine ⟨rfl, ?_, by decide⟩
  simp [year_step, List.length_take]

/-! ## Claim C8 -/

/-- C8: the Phase step output is exactly the cleaned entries whose label
contains the level marker, in original order; it is a sublist of the cleaned
list, and a strict one whenever some cleaned entry lacks the marker. -/
theorem c8_phase_step (p : Page) :
    phase_step p =
      (extract_options p phaseId).filter (fun o => strContains o.2 "المستوى") ∧
    (∀ o, o ∈ phase_step p → strContains o.2 "المستوى" = true) ∧
    (phase_step p).Sublist (extract_options p phaseId) ∧
    (∀ o, o ∈ extract_options p phaseId → strContains o.2 "المستوى" = false →
      phase_step p ≠ extract_options p phaseId) := by
  refine ⟨rfl, ?_, List.filter_sublist _, ?_⟩
  · intro o ho
    have ho' : o ∈ (extract_options p phaseId).filter
        (fun o => strContains o.2 "المستوى") := ho
    exact (List.mem_filter.mp ho').2
  · intro o ho hno heq
    have hmem : o ∈ phase_step p := by rw [heq]; exact ho
    have hmem' : o ∈ (extract_options p phaseId).filter
        (fun o => strContains o.2 "المستوى") := hmem
    have hmark := (List.mem_filter.mp hmem').2
    rw [hno] at hmark
    exact Bool.noConfusion hmark

/-- A Phase select mixing level entries with unrelated metadata. -/
def pageC8 : Page :=
  { inputs := []
    selects := [⟨some phaseId, some "ph",
      [⟨some "1", "المستوى الأول", false⟩, ⟨some "2", "برنامج آخر", false⟩]⟩]
    rows := []
    resultsTable := none }

/-- Witness for C8 on `pageC8`: the surviving entry carries the marker and
the output is a strict subset of the mixed input. -/
theorem c8_phase_step_witness :
    strContains (("1", "المستوى الأول") : String × String).2 "المستوى" = true ∧
    phase_step pageC8 ≠ extract_options pageC8 phaseId :=
  ⟨(c8_phase_step pageC8).2.1 ("1", "المستوى الأول") (by decide),
   (c8_phase_step pageC8).2.2.2 ("2", "برنامج آخر") (by decide) (by decide)⟩

/-! ## Claim C9 -/

theorem reverse_getD (l : List String) (q : Nat) (hq : q < l.length) :
    l.reverse.getD (l.length - 1 - q) "" = l.getD q "" := by
  have h1 : l.length - 1 - q < l.reverse.length := by
    rw [List.length_reverse]; omega
  rw [List.getD_eq_getElem _ _ h1, List.getD_eq_getElem _ _ hq,
    List.getElem_reverse]
  congr 1
  omega

/-- A report page whose center-aligned header row repeats a non-trailing cell
text. -/
def pageC9 : Page :=
  { inputs := []
    selects := []
    rows := [⟨some "center", ["A", "A", "c", "c", "c", "c", "c", "c"]⟩]
    resultsTable := none }

/-- C9 counterexample: with a repeated non-trailing header text, the returned
header list is not the reversed non-trailing cell texts — the repeated label
is suffixed with its cell index first. -/
theorem c9_counterexample :
    extract_table_headers pageC9 = ["A_1", "A"] ∧
    extract_table_headers pageC9 ≠
      ((["A", "A", "c", "c", "c", "c", "c", "c"].take (8 - 6)).reverse) := by
  decide

/-- C9 (amended): header extraction returns the empty list when no
center-aligned row exists or when that row has at most 6 cells; otherwise it
returns the dedup-suffixed labels of the cells with the trailing 6 dropped,
reversed — exactly the reversed cell texts whenever those texts are pairwise
distinct (as in the spec's 9-cell scenario). -/
theorem c9_header_extraction_amended (p : Page) :
    (p.rows.find? (fun r => r.align = some "center") = none →
      extract_table_headers p = []) ∧
    (∀ row, p.rows.find? (fun r => r.align = some "center") = some row →
      (row.cells.length ≤ 6 → extract_table_headers p = []) ∧
      (6 < row.cells.length →
        extract_table_headers p =
          (headerLoop (row.cells.take (row.cells.length - 6)) 0 []).reverse ∧
        ((row.cells.take (row.cells.length - 6)).Nodup →
          extract_table_headers p =
            (row.cells.take (row.cells.length - 6)).reverse))) := by
  constructor
  · intro h
    simp [extract_table_headers, h]
  · intro row hrow
    have hne6 : ∀ h6 : 6 < row.cells.length, ¬(row.cells.length ≤ 6) := by omega
    constructor
    · intro h6
      simp [extract_table_headers, hrow, h6]
    · intro h6
      constructor
      · simp [extract_table_headers, hrow, hne6 h6]
      · intro hnd
        have hbase : extract_table_headers p =
            (headerLoop (row.cells.take (row.cells.length - 6)) 0 []).reverse := by
          simp [extract_table_headers, hrow, hne6 h6]
        rw [hbase, headerLoop_of_nodup _ 0 [] hnd (by simp)]
        simp

/-- A page with a 9-cell header row of pairwise distinct non-trailing texts. -/
def pageW9 : Page :=
  { inputs := []
    selects := []
    rows := [⟨some "center", ["h1", "h2", "h3", "c4", "c5", "c6", "c7", "c8", "c9"]⟩]
    resultsTable := none }

/-- Witness for the amended C9: the 9-cell row yields exactly the 3
non-trailing cell texts in reversed order. -/
theorem c9_header_extraction_amended_witness :
    extract_table_headers pageW9 = ["h3", "h2", "h1"] :=
  (((c9_header_extraction_amended pageW9).2
    ⟨some "center", ["h1", "h2", "h3", "c4", "c5", "c6", "c7", "c8", "c9"]⟩
    (by decide)).2 (by decide)).2 (by decide)

/-! ## Claim C10 -/

theorem headerLoop_getD_at (t₀ : String) (ts : List String) (i : Nat)
    (acc : List String) (q : Nat) (hq : q = acc.length) :
    (headerLoop (t₀ :: ts) i acc).getD q "" =
      (if t₀ ∈ acc then t₀ ++ "_" ++ natDec i else t₀) := by
  subst hq
  exact headerLoop_getD_head t₀ ts i acc

/-- C10: in the returned header list, two positions whose source cell texts
are equal never carry identical labels — the later cell's label is the text
with `"_<cell index>"` appended whenever the text already occurs among the
earlier extracted labels. -/
theorem c10_header_dedup (p : Page) (row : RowElem)
    (hrow : p.rows.find? (fun r => r.align = some "center") = some row)
    (h6 : 6 < row.cells.length) (i j : Nat) (hij : i < j)
    (hj : j < row.cells.length - 6)
    (heq : (row.cells.take (row.cells.length - 6)).getD i "" =
      (row.cells.take (row.cells.length - 6)).getD j "") :
    ((extract_table_headers p).getD (row.cells.length - 6 - 1 - i) "" ≠
      (extract_table_headers p).getD (row.cells.length - 6 - 1 - j) "") ∧
    ((row.cells.take (row.cells.length - 6)).getD j "" ∈
        headerLoop ((row.cells.take (row.cells.length - 6)).take j) 0 [] →
      (extract_table_headers p).getD (row.cells.length - 6 - 1 - j) "" =
        (row.cells.take (row.cells.length - 6)).getD j "" ++ "_" ++ natDec j) := by
  set target := row.cells.take (row.cells.length - 6) with htarget
  have hlen : target.length = row.cells.length - 6 := by
    rw [htarget, List.length_take]
    omega
  have hext : extract_table_headers p = (headerLoop target 0 []).reverse := by
    simp only [extract_table_headers, hrow]
    rw [if_neg (by omega), htarget]
  have hcore : (headerLoop target 0 []).length = target.length := by
    rw [headerLoop_length]
    simp
  have hjt : j < target.length := by omega
  have hit : i < target.length := by omega
  have ei : row.cells.length - 6 - 1 - i = (headerLoop target 0 []).length - 1 - i := by
    rw [hcore, hlen]
  have ej : row.cells.length - 6 - 1 - j = (headerLoop target 0 []).length - 1 - j := by
    rw [hcore, hlen]
  constructor
  · rw [hext, ei, ej, reverse_getD _ _ (by omega), reverse_getD _ _ (by omega)]
    have := headerLoop_pair_ne target 0 [] i j hij hjt heq
    simpa using this
  · intro hmem
    rw [hext, ej, reverse_getD _ _ (by omega)]
    have hsplit : headerLoop target 0 [] =
        headerLoop (target.drop j) (0 + (target.take j).length)
          (headerLoop (target.take j) 0 []) := by
      rw [← headerLoop_split, List.take_append_drop]
    have htk : (target.take j).length = j := by
      rw [List.length_take]
      omega
    have haccj : (headerLoop (target.take j) 0 []).length = j := by
      rw [headerLoop_length, htk]
      simp
    have hdrop : target.drop j = target.getD j "" :: target.drop (j + 1) := by
      rw [List.getD_eq_getElem _ _ hjt]
      exact List.drop_eq_getElem_cons hjt
    rw [hsplit, hdrop, htk, show (0 + j) = j from by omega]
    rw [headerLoop_getD_at _ _ _ _ j haccj.symm, if_pos hmem]

/-- The C10 witness page: an 8-cell center-aligned header row whose two
non-trailing cells share the text `"A"`. -/
def pageW10 : Page :=
  { inputs := []
    selects := []
    rows := [⟨some "center", ["A", "A", "c3", "c4", "c5", "c6", "c7", "c8"]⟩]
    resultsTable := none }

/-- Witness for C10 on `pageW10`: positions with equal source texts carry
distinct labels, the later one suffixed with its cell index. -/
theorem c10_header_dedup_witness :
    ((extract_table_headers pageW10).getD 1 "" ≠
      (extract_table_headers pageW10).getD 0 "") ∧
    (("A" : String) ∈ headerLoop ["A"] 0 [] →
      (extract_table_headers pageW10).getD 0 "" = "A" ++ "_" ++ natDec 1) :=
  c10_header_dedup pageW10 ⟨some "center", ["A", "A", "c3", "c4", "c5", "c6", "c7", "c8"]⟩
    (by decide) (by decide) 0 1 (by decide) (by decide) (by decide)
